import Mathlib

/-!
# Verification of the aider-standalone release scripts

Shallow embedding of the release-engineering logic of
`scripts/compute_version.py` and `scripts/fetch_aider_release.py`:

* the release-tag regexes `RE_RELEASE_TAGS` and templates
  `RELEASE_TAG_TEMPLATES`,
* the build-number allocator `next_build_number`,
* the metadata formatter `build_metadata`,
* the version resolver `resolve_version` and the error handling of the two
  scripts' `main` functions.

Python strings are modelled as `List Char`.  The four anchored regexes of
`RE_RELEASE_TAGS` are simple enough to admit deterministic equivalents: every
variable-width group (`[^-]+`, `[a-f0-9]+`, `\d+`) excludes the character
that terminates it, so greedy matching with backtracking coincides with
"take the maximal run".  Python's `$` (as used by `re.match` without
`re.MULTILINE`) accepts the end of the string or a position just before a
single trailing newline; `reDollar` reproduces exactly that.  `\d` is
modelled as the ASCII digits '0'-'9' (the only digits the templates ever
emit; Python's `\d` additionally accepts non-ASCII Unicode decimal digits,
which no claim depends on).  Build numbers are modelled as `Nat`: the
allocator only ever produces positive integers and `str`/`int` on
non-negative Python ints agree with the decimal rendering/parsing used here.
-/

namespace AiderStandalone

/-- Python strings, modelled as lists of characters. -/
abbrev Str := List Char

/-- The two product variants of `compute_version.py` (`--variant`). -/
inductive Variant
  | aiderChat
  | aiderCe
deriving DecidableEq

/-- The two source classifications (`--source-type`): `pypi` or `main`. -/
inductive SourceType
  | pypi
  | mainBranch
deriving DecidableEq

/-- The character class `[a-f0-9]` of the snapshot regexes. -/
def isHexLower (c : Char) : Bool := c.isDigit || ('a' ≤ c && c ≤ 'f')

/-- Match a literal piece of a regex: `dropLit lit s` returns the remainder
of `s` after the leading literal `lit`, or `none` when `s` does not start
with `lit`. -/
def dropLit : List Char → List Char → Option (List Char)
  | [], s => some s
  | _ :: _, [] => none
  | c :: cs, x :: xs => if x = c then dropLit cs xs else none

/-- The literal part of the `pypi` regex/template for each variant:
`standalone-v` resp. `standalone-ce-v` (`RE_RELEASE_TAGS`, lines 31-44). -/
def pypiLit : Variant → Str
  | .aiderChat => "standalone-v".data
  | .aiderCe => "standalone-ce-v".data

/-- The literal part of the `main` (snapshot) regex/template for each
variant: `standalone-main-` resp. `standalone-ce-main-`. -/
def mainLit : Variant → Str
  | .aiderChat => "standalone-main-".data
  | .aiderCe => "standalone-ce-main-".data

/-- Core of `^standalone(-ce)?-v(?P<version>[^-]+)-build(?P<build>\d+)` with
the whole input consumed: since `[^-]+` cannot contain `-`, the version
group necessarily ends at the first `-` after the literal, and `\d+` must
cover the entire rest of the input.  Returns the captured
`(version, build)` groups. -/
def pypiCore (variant : Variant) (s : Str) : Option (Str × Str) :=
  match dropLit (pypiLit variant) s with
  | none => none
  | some r =>
    let ver := r.takeWhile (fun c => c != '-')
    let rest := r.dropWhile (fun c => c != '-')
    if ver = [] then none
    else
      match dropLit "-build".data rest with
      | none => none
      | some r2 =>
        let bld := r2.takeWhile Char.isDigit
        if bld = [] then none
        else if r2.dropWhile Char.isDigit = [] then some (ver, bld)
        else none

/-- Core of
`^standalone(-ce)?-main-(?P<date>\d{8})-(?P<commit>[a-f0-9]+)-build(?P<build>\d+)`
with the whole input consumed: `\d{8}` is a fixed-width field, and since
`[a-f0-9]+` cannot contain `-`, the commit group necessarily ends at the
first non-hex character, which the regex requires to be the `-` of
`-build`.  Returns the captured `(date, commit, build)` groups. -/
def mainCore (variant : Variant) (s : Str) : Option (Str × Str × Str) :=
  match dropLit (mainLit variant) s with
  | none => none
  | some r =>
    let d := r.take 8
    let r1 := r.drop 8
    if d.length = 8 ∧ d.all Char.isDigit then
      match r1 with
      | '-' :: r2 =>
        let com := r2.takeWhile isHexLower
        let r3 := r2.dropWhile isHexLower
        if com = [] then none
        else
          match dropLit "-build".data r3 with
          | none => none
          | some r4 =>
            let bld := r4.takeWhile Char.isDigit
            if bld = [] then none
            else if r4.dropWhile Char.isDigit = [] then some (d, com, bld)
            else none
      | _ => none
    else none

/-- Python's `re.match` against a pattern ending in `$` (no `re.MULTILINE`):
the pattern has to match the whole string, or the whole string minus a
single trailing newline (`$` also matches just before a final `'\n'`). -/
def reDollar {α : Type} (core : Str → Option α) (s : Str) : Option α :=
  match core s with
  | some g => some g
  | none => if s.getLast? = some '\n' then core s.dropLast else none

/-- `RE_RELEASE_TAGS[variant]["pypi"].match(tag)`, returning the
`(version, build)` groups. -/
def matchPypiTag (variant : Variant) (s : Str) : Option (Str × Str) :=
  reDollar (pypiCore variant) s

/-- `RE_RELEASE_TAGS[variant]["main"].match(tag)`, returning the
`(date, commit, build)` groups. -/
def matchMainTag (variant : Variant) (s : Str) : Option (Str × Str × Str) :=
  reDollar (mainCore variant) s

/-- Base-10 parse of a digit string, as Python's `int` on the `\d+` build
group (`int(match.group("build"))`, line 86). -/
def parseNat (s : Str) : Nat :=
  s.foldl (fun a c => 10 * a + (c.toNat - 48)) 0

/-- Decimal rendering with bounded recursion on a fuel argument (the fuel is
always sufficient: a number `n` has at most `n` digits). -/
def natToStrGo : Nat → Nat → Str
  | 0, _ => []
  | fuel + 1, n =>
    if n = 0 then []
    else natToStrGo fuel (n / 10) ++ [Char.ofNat (48 + n % 10)]

/-- Python's `str` on a non-negative int, as used by `str.format` and
f-strings for the `build_number`, `date`, `commit` fields. -/
def natToStr (n : Nat) : Str :=
  if n = 0 then ['0'] else natToStrGo (n + 1) n

/-- One element of the JSON array returned by the releases-listing endpoint,
as `next_build_number` observes it (lines 73-76): an element that is not a
dict, a dict without `"tag_name"`, a dict whose `"tag_name"` is not a
string, or a dict carrying a tag string. -/
inductive Entry
  | notDict
  | dictNoTag
  | dictNonStrTag
  | dictTag (tag : Str)
deriving DecidableEq

/-- `release.get("tag_name") if isinstance(release, dict) else None`,
followed by the `isinstance(tag_name, str)` check (lines 74-76): the tag
string, if the entry carries one. -/
def entryTag : Entry → Option Str
  | .dictTag s => some s
  | _ => none

/-- The body of `next_build_number`'s loop for one release record (lines
73-87): the parsed build number of the record's tag if the tag matches the
pattern selected by `(variant, source_type)` and its key groups equal the
given key fields, `none` when the record is skipped by a `continue`.
A group (a `str`) is compared against the optional `date_str`/`commit_hash`
exactly as Python compares `str` to `Optional[str]`: never equal to
`None`. -/
def keptBuild (variant : Variant) (sourceType : SourceType) (aiderVersion : Str)
    (dateStr commitHash : Option Str) (e : Entry) : Option Nat :=
  match entryTag e with
  | none => none
  | some tag =>
    match sourceType with
    | .pypi =>
      match matchPypiTag variant tag with
      | none => none
      | some (ver, bld) =>
        if ver = aiderVersion then some (parseNat bld) else none
    | .mainBranch =>
      match matchMainTag variant tag with
      | none => none
      | some (d, com, bld) =>
        if some d = dateStr ∧ some com = commitHash then some (parseNat bld)
        else none

/-- `next_build_number` (lines 63-88): scan the release records, keep the
maximal build number among the kept records (starting from 0) and return one
more. -/
def nextBuildNumber (releases : List Entry) (aiderVersion : Str)
    (sourceType : SourceType) (dateStr commitHash : Option Str)
    (variant : Variant) : Nat :=
  (releases.foldl
    (fun maxBuild e =>
      match keptBuild variant sourceType aiderVersion dateStr commitHash e with
      | none => maxBuild
      | some b => max maxBuild b) 0) + 1

/-- Python's `format`/f-string interpolation of an `Optional[str]` value:
`None` renders as the four characters `None`. -/
def pyStr : Option Str → Str
  | none => "None".data
  | some s => s

/-- `RELEASE_TAG_TEMPLATES[variant][source_type].format(...)` as
`build_metadata` fills it in (lines 99-111). -/
def renderTag (variant : Variant) (sourceType : SourceType) (aiderVersion : Str)
    (dateStr commitHash : Option Str) (buildNumber : Nat) : Str :=
  match sourceType with
  | .pypi =>
    pypiLit variant ++ aiderVersion ++ "-build".data ++ natToStr buildNumber
  | .mainBranch =>
    mainLit variant ++ pyStr dateStr ++ "-".data ++ pyStr commitHash
      ++ "-build".data ++ natToStr buildNumber

/-- The artifact name `build_metadata` computes (lines 104-115). -/
def renderArtifact (variant : Variant) (sourceType : SourceType)
    (aiderVersion : Str) (dateStr commitHash : Option Str)
    (buildNumber : Nat) : Str :=
  match sourceType, variant with
  | .mainBranch, .aiderCe =>
    "aider-ce-main-".data ++ pyStr dateStr ++ "-".data ++ pyStr commitHash
      ++ "-build".data ++ natToStr buildNumber
  | .mainBranch, .aiderChat =>
    "aider-main-".data ++ pyStr dateStr ++ "-".data ++ pyStr commitHash
      ++ "-build".data ++ natToStr buildNumber
  | .pypi, .aiderCe =>
    "aider-ce-".data ++ aiderVersion ++ "-build".data ++ natToStr buildNumber
  | .pypi, .aiderChat =>
    "aider-".data ++ aiderVersion ++ "-build".data ++ natToStr buildNumber

/-- The dict returned by `build_metadata` (lines 116-125).  The
`created_at` wall-clock timestamp (`datetime.now(...)`) is passed in as the
`now` parameter. -/
structure Metadata where
  variant : Variant
  aider_version : Str
  build_number : Nat
  tag_name : Str
  artifact_name : Str
  source_type : SourceType
  commit_hash : Option Str
  created_at : Str
deriving DecidableEq

/-- `build_metadata` (lines 91-125). -/
def buildMetadata (aiderVersion : Str) (buildNumber : Nat)
    (sourceType : SourceType) (dateStr commitHash : Option Str)
    (variant : Variant) (now : Str) : Metadata :=
  { variant := variant
    aider_version := aiderVersion
    build_number := buildNumber
    tag_name := renderTag variant sourceType aiderVersion dateStr commitHash buildNumber
    artifact_name :=
      renderArtifact variant sourceType aiderVersion dateStr commitHash buildNumber
    source_type := sourceType
    commit_hash := commitHash
    created_at := now }

/-! ## The version resolver (`fetch_aider_release.py`) -/

/-- Python string truthiness for an `Optional[str]`: `None` and `""` are
falsy. -/
def pyTruthy : Option Str → Bool
  | none => false
  | some s => !s.isEmpty

/-- The variant name as the scripts' `--variant` choices spell it, used in
error messages via f-string interpolation. -/
def variantName : Variant → Str
  | .aiderChat => "aider-chat".data
  | .aiderCe => "aider-ce".data

/-- Python string `<`: lexicographic comparison by code point. -/
def strLt : Str → Str → Bool
  | [], [] => false
  | [], _ :: _ => true
  | _ :: _, [] => false
  | a :: as, b :: bs => if a < b then true else if b < a then false else strLt as bs

/-- Insert into a descending-sorted list, before any equal element (so the
sort below is stable, like Python's `sorted`). -/
def insertDesc (x : Str) : List Str → List Str
  | [] => [x]
  | y :: ys => if strLt x y then y :: insertDesc x ys else x :: y :: ys

/-- `sorted(keys, reverse=True)` (line 32): a stable descending sort by
Python string order. -/
def sortDesc : List Str → List Str
  | [] => []
  | x :: xs => insertDesc x (sortDesc xs)

/-- The PyPI JSON body as `resolve_version` reads it: the keys of the
`releases` mapping (`data.get("releases", {})`, an absent mapping giving no
keys) and the optional `info.version` field
(`data.get("info", {}).get("version")`). -/
structure RegistryData where
  releases : List Str
  infoVersion : Option Str

/-- The "version not found" message of `resolve_version` (lines 33-36):
it enumerates the first 20 of the descending-sorted known versions. -/
def notFoundMsg (variant : Variant) (requested : Str) (releaseKeys : List Str) : Str :=
  "Requested ".data ++ variantName variant ++ " version '".data ++ requested
    ++ "' was not found on PyPI. Available versions (newest first): ".data
    ++ List.intercalate ", ".data ((sortDesc releaseKeys).take 20)

/-- The "no latest version available" message of `resolve_version`
(line 40). -/
def noLatestMsg (variant : Variant) : Str :=
  "Unable to determine latest ".data ++ variantName variant
    ++ " release from PyPI response".data

/-- The "registry unreachable" message of `fetch_aider_release.main`
(line 62), wrapping the rendered `URLError`. -/
def transportMsg (variant : Variant) (exc : Str) : Str :=
  "Failed to query PyPI for ".data ++ variantName variant
    ++ " releases: ".data ++ exc

/-- `resolve_version` (lines 28-41), applied to already-fetched registry
data: a truthy `requested` is checked against the `releases` keys, an
absent/empty `requested` falls back to `info.version`.  `SystemExit`
messages become `Except.error`. -/
def resolveVersion (data : RegistryData) (requested : Option Str)
    (variant : Variant) : Except Str Str :=
  if pyTruthy requested then
    let r := requested.getD []
    if r ∈ data.releases then Except.ok r
    else Except.error (notFoundMsg variant r data.releases)
  else
    match data.infoVersion with
    | some v => if v.isEmpty then Except.error (noLatestMsg variant) else Except.ok v
    | none => Except.error (noLatestMsg variant)

/-- `fetch_aider_release.main`'s resolution step (lines 59-62): the fetch of
the registry data either fails with a transport error (`URLError`, rendered
into the distinct "Failed to query PyPI" message) or yields data handed to
`resolve_version`. -/
def fetchAiderMain (fetchResult : Except Str RegistryData)
    (requested : Option Str) (variant : Variant) : Except Str Str :=
  match fetchResult with
  | .error exc => Except.error (transportMsg variant exc)
  | .ok data => resolveVersion data requested variant

/-! ## `compute_version.main` (lines 128-204) -/

/-- The parsed command-line arguments of `compute_version.py` that affect
the computation (output paths left out: pure file sinks). -/
structure CVArgs where
  aiderVersion : Str
  overrideBuildNumber : Option Nat
  sourceType : SourceType
  commitHash : Option Str
  date : Option Str
  variant : Variant

/-- The fail-fast message of line 161. -/
def missingFieldsMsg : Str :=
  "--commit-hash and --date are required for main branch builds".data

/-- The message of lines 168-169 (credentials not configured). -/
def missingEnvMsg : Str :=
  "GITHUB_REPOSITORY and GITHUB_TOKEN must be set to compute build numbers automatically".data

/-- The message of line 174 (release listing unreachable), wrapping the
rendered `URLError`. -/
def ghTransportMsg (exc : Str) : Str :=
  "Failed to query GitHub releases: ".data ++ exc

/-- `compute_version.main` (lines 158-191) up to the construction of the
metadata: the missing-field guard of lines 160-161 runs first; only when no
explicit build number is given are the environment checked and the release
listing consulted.  `repoEnv`/`tokenEnv` model the `GITHUB_REPOSITORY` /
`GITHUB_TOKEN` environment variables and `fetchResult` the outcome the
releases fetch would have (a `URLError` rendering, or the listing). -/
def computeVersionMain (args : CVArgs) (repoEnv tokenEnv : Option Str)
    (fetchResult : Except Str (List Entry)) (now : Str) : Except Str Metadata :=
  if args.sourceType = .mainBranch ∧ (¬ pyTruthy args.commitHash ∨ ¬ pyTruthy args.date) then
    Except.error missingFieldsMsg
  else
    match args.overrideBuildNumber with
    | some b =>
      Except.ok (buildMetadata args.aiderVersion b args.sourceType args.date
        args.commitHash args.variant now)
    | none =>
      if ¬ pyTruthy repoEnv ∨ ¬ pyTruthy tokenEnv then Except.error missingEnvMsg
      else
        match fetchResult with
        | .error exc => Except.error (ghTransportMsg exc)
        | .ok releases =>
          Except.ok (buildMetadata args.aiderVersion
            (nextBuildNumber releases args.aiderVersion args.sourceType
              args.date args.commitHash args.variant)
            args.sourceType args.date args.commitHash args.variant now)

/-! ## Parsing helper lemmas -/

theorem dropLit_self_append (lit r : Str) : dropLit lit (lit ++ r) = some r := by
  induction lit with
  | nil => rfl
  | cons c cs ih => simp [dropLit, ih]

theorem dropLit_eq_some {lit s r : Str} (h : dropLit lit s = some r) :
    s = lit ++ r := by
  induction lit generalizing s with
  | nil => simpa [dropLit] using h
  | cons c cs ih =>
    cases s with
    | nil => simp [dropLit] at h
    | cons x xs =>
      by_cases hx : x = c
      · subst hx
        simp only [dropLit, if_pos rfl] at h
        simpa using ih h
      · simp [dropLit, hx] at h

theorem takeWhile_all {p : Char → Bool} {xs : Str} (h : ∀ x ∈ xs, p x = true) :
    xs.takeWhile p = xs := by
  induction xs with
  | nil => rfl
  | cons x xs ih =>
    simp only [List.takeWhile_cons, h x (List.mem_cons_self x xs), if_true,
      List.cons.injEq, true_and]
    exact ih fun y hy => h y (List.mem_cons_of_mem _ hy)

theorem dropWhile_all {p : Char → Bool} {xs : Str} (h : ∀ x ∈ xs, p x = true) :
    xs.dropWhile p = [] := by
  induction xs with
  | nil => rfl
  | cons x xs ih =>
    simp only [List.dropWhile_cons, h x (List.mem_cons_self x xs), if_true]
    exact ih fun y hy => h y (List.mem_cons_of_mem _ hy)

theorem takeWhile_append_stop {p : Char → Bool} {xs : Str} {y : Char} (ys : Str)
    (h : ∀ x ∈ xs, p x = true) (hy : p y = false) :
    (xs ++ y :: ys).takeWhile p = xs := by
  induction xs with
  | nil => simp [List.takeWhile_cons, hy]
  | cons x xs ih =>
    simp only [List.cons_append, List.takeWhile_cons, h x (List.mem_cons_self x xs),
      if_true, List.cons.injEq, true_and]
    exact ih fun z hz => h z (List.mem_cons_of_mem _ hz)

theorem dropWhile_append_stop {p : Char → Bool} {xs : Str} {y : Char} (ys : Str)
    (h : ∀ x ∈ xs, p x = true) (hy : p y = false) :
    (xs ++ y :: ys).dropWhile p = y :: ys := by
  induction xs with
  | nil => simp [List.dropWhile_cons, hy]
  | cons x xs ih =>
    simp only [List.cons_append, List.dropWhile_cons, h x (List.mem_cons_self x xs), if_true]
    exact ih fun z hz => h z (List.mem_cons_of_mem _ hz)

theorem ne_of_append_char {l1 l2 r1 r2 : Str} (i : Nat) (c1 c2 : Char)
    (h1 : l1[i]? = some c1) (h2 : l2[i]? = some c2) (hc : c1 ≠ c2) :
    l1 ++ r1 ≠ l2 ++ r2 := by
  intro h
  have hi1 : i < l1.length := (List.getElem?_eq_some.mp h1).1
  have hi2 : i < l2.length := (List.getElem?_eq_some.mp h2).1
  have e1 : (l1 ++ r1)[i]? = some c1 := by
    rw [List.getElem?_append, if_pos hi1]; exact h1
  have e2 : (l2 ++ r2)[i]? = some c2 := by
    rw [List.getElem?_append, if_pos hi2]; exact h2
  rw [h, e2] at e1
  exact hc (Option.some.inj e1).symm

/-! ## Decimal rendering and parsing lemmas -/

theorem charOfNat_digit {d : Nat} (hd : d < 10) :
    (Char.ofNat (48 + d)).isDigit = true ∧ (Char.ofNat (48 + d)).toNat = 48 + d := by
  interval_cases d <;> exact ⟨by decide, by decide⟩

theorem parseNat_append_singleton (s : Str) (c : Char) :
    parseNat (s ++ [c]) = 10 * parseNat s + (c.toNat - 48) := by
  simp [parseNat, List.foldl_append]

theorem natToStrGo_digits : ∀ (fuel n : Nat), ∀ c ∈ natToStrGo fuel n, c.isDigit = true := by
  intro fuel
  induction fuel with
  | zero => intro n c hc; simp [natToStrGo] at hc
  | succ fuel ih =>
    intro n c hc
    by_cases hn : n = 0
    · simp [natToStrGo, hn] at hc
    · simp only [natToStrGo, if_neg hn, List.mem_append, List.mem_singleton] at hc
      rcases hc with hc | hc
      · exact ih _ c hc
      · subst hc
        exact (charOfNat_digit (Nat.mod_lt _ (by norm_num))).1

theorem parseNat_natToStrGo : ∀ (fuel n : Nat), n < 10 ^ fuel →
    parseNat (natToStrGo fuel n) = n := by
  intro fuel
  induction fuel with
  | zero =>
    intro n hn
    interval_cases n
    rfl
  | succ fuel ih =>
    intro n hn
    by_cases hn0 : n = 0
    · simp [natToStrGo, hn0, parseNat]
    · have hdiv : n / 10 < 10 ^ fuel := by
        rw [Nat.div_lt_iff_lt_mul (by norm_num)]
        calc n < 10 ^ (fuel + 1) := hn
        _ = 10 ^ fuel * 10 := by ring
      rw [natToStrGo, if_neg hn0, parseNat_append_singleton, ih _ hdiv,
        (charOfNat_digit (Nat.mod_lt _ (by norm_num))).2, Nat.add_sub_cancel_left]
      omega

theorem natToStr_digits (n : Nat) : ∀ c ∈ natToStr n, c.isDigit = true := by
  intro c hc
  by_cases hn : n = 0
  · simp [natToStr, hn] at hc
    subst hc; decide
  · rw [natToStr, if_neg hn] at hc
    exact natToStrGo_digits _ _ c hc

theorem natToStr_ne_nil (n : Nat) : natToStr n ≠ [] := by
  by_cases hn : n = 0
  · simp [natToStr, hn]
  · rw [natToStr, if_neg hn, natToStrGo, if_neg hn]
    simp

theorem parseNat_natToStr (n : Nat) : parseNat (natToStr n) = n := by
  by_cases hn : n = 0
  · simp [natToStr, hn, parseNat]
  · rw [natToStr, if_neg hn]
    exact parseNat_natToStrGo _ _ (lt_trans (Nat.lt_pow_self (by norm_num) n)
      (Nat.pow_lt_pow_right (by norm_num) (Nat.lt_succ_self n)))

theorem isDigit_bne_dash {c : Char} (h : c.isDigit = true) : (c != '-') = true := by
  rw [bne_iff_ne]
  rintro rfl
  exact absurd h (by decide)

/-! ## The regex languages, read off the patterns of `RE_RELEASE_TAGS`

`pypiLang`/`mainLang` transcribe the regexes declaratively, as the set of
strings they describe; the lemmas below prove the executable matchers
recognise exactly these languages (up to the `$` trailing-newline rule). -/

/-- The language of `^standalone(-ce)?-v(?P<version>[^-]+)-build(?P<build>\d+)$`
without the `$` newline concession: a full tag is the literal, a nonempty
hyphen-free version, the literal `-build` and a nonempty run of digits. -/
def pypiLang (variant : Variant) (s : Str) : Prop :=
  ∃ v bs, s = pypiLit variant ++ v ++ "-build".data ++ bs ∧ v ≠ [] ∧ '-' ∉ v ∧
    bs ≠ [] ∧ ∀ x ∈ bs, x.isDigit = true

/-- The language of
`^standalone(-ce)?-main-(?P<date>\d{8})-(?P<commit>[a-f0-9]+)-build(?P<build>\d+)$`
without the `$` newline concession. -/
def mainLang (variant : Variant) (s : Str) : Prop :=
  ∃ d c bs, s = mainLit variant ++ d ++ "-".data ++ c ++ "-build".data ++ bs ∧
    d.length = 8 ∧ (∀ x ∈ d, x.isDigit = true) ∧ c ≠ [] ∧
    (∀ x ∈ c, isHexLower x = true) ∧ bs ≠ [] ∧ ∀ x ∈ bs, x.isDigit = true

theorem pypiCore_render (variant : Variant) {v bs : Str}
    (hv : v ≠ []) (hvd : '-' ∉ v) (hb : bs ≠ []) (hbd : ∀ x ∈ bs, x.isDigit = true) :
    pypiCore variant (pypiLit variant ++ v ++ "-build".data ++ bs) = some (v, bs) := by
  have hvp : ∀ x ∈ v, (x != '-') = true := fun x hx =>
    bne_iff_ne.mpr fun he => hvd (he ▸ hx)
  have hshape : pypiLit variant ++ v ++ "-build".data ++ bs
      = pypiLit variant ++ (v ++ '-' :: ("build".data ++ bs)) := by
    simp [List.append_assoc]
  have htake : (v ++ '-' :: ("build".data ++ bs)).takeWhile (fun c => c != '-') = v :=
    takeWhile_append_stop _ hvp (by decide)
  have hdrop : (v ++ '-' :: ("build".data ++ bs)).dropWhile (fun c => c != '-')
      = '-' :: ("build".data ++ bs) :=
    dropWhile_append_stop _ hvp (by decide)
  have hlit : dropLit "-build".data ('-' :: ("build".data ++ bs)) = some bs :=
    dropLit_self_append "-build".data bs
  rw [hshape]
  simp only [pypiCore, dropLit_self_append, htake, hdrop, if_neg hv, hlit,
    takeWhile_all hbd, dropWhile_all hbd, if_neg hb, if_pos rfl, if_true]

theorem mainCore_render (variant : Variant) {d c bs : Str}
    (hd8 : d.length = 8) (hdd : ∀ x ∈ d, x.isDigit = true)
    (hc : c ≠ []) (hch : ∀ x ∈ c, isHexLower x = true)
    (hb : bs ≠ []) (hbd : ∀ x ∈ bs, x.isDigit = true) :
    mainCore variant (mainLit variant ++ d ++ "-".data ++ c ++ "-build".data ++ bs)
      = some (d, c, bs) := by
  have hshape : mainLit variant ++ d ++ "-".data ++ c ++ "-build".data ++ bs
      = mainLit variant ++ (d ++ '-' :: (c ++ '-' :: ("build".data ++ bs))) := by
    simp [List.append_assoc]
  have htake8 : (d ++ '-' :: (c ++ '-' :: ("build".data ++ bs))).take 8 = d := by
    rw [← hd8]; exact List.take_left _ _
  have hdrop8 : (d ++ '-' :: (c ++ '-' :: ("build".data ++ bs))).drop 8
      = '-' :: (c ++ '-' :: ("build".data ++ bs)) := by
    rw [← hd8]; exact List.drop_left _ _
  have htakeh : (c ++ '-' :: ("build".data ++ bs)).takeWhile isHexLower = c :=
    takeWhile_append_stop _ hch (by decide)
  have hdroph : (c ++ '-' :: ("build".data ++ bs)).dropWhile isHexLower
      = '-' :: ("build".data ++ bs) :=
    dropWhile_append_stop _ hch (by decide)
  have hlit : dropLit "-build".data ('-' :: ("build".data ++ bs)) = some bs :=
    dropLit_self_append "-build".data bs
  rw [hshape]
  simp only [mainCore, dropLit_self_append, htake8, hdrop8,
    if_pos (And.intro hd8 (List.all_eq_true.mpr hdd)), htakeh, hdroph, if_neg hc,
    hlit, takeWhile_all hbd, dropWhile_all hbd, if_neg hb, if_pos rfl, if_true]

theorem pypiCore_decomp {variant : Variant} {s : Str} {v bs : Str}
    (h : pypiCore variant s = some (v, bs)) :
    s = pypiLit variant ++ v ++ "-build".data ++ bs ∧ v ≠ [] ∧ '-' ∉ v ∧
      bs ≠ [] ∧ ∀ x ∈ bs, x.isDigit = true := by
  unfold pypiCore at h
  split at h
  · exact absurd h (by simp)
  case _ r heq =>
    have hs : s = pypiLit variant ++ r := dropLit_eq_some heq
    by_cases hver : r.takeWhile (fun c => c != '-') = []
    · rw [if_pos hver] at h; exact absurd h (by simp)
    rw [if_neg hver] at h
    split at h
    · exact absurd h (by simp)
    case _ r2 heq2 =>
      by_cases hbld : r2.takeWhile Char.isDigit = []
      · rw [if_pos hbld] at h; exact absurd h (by simp)
      rw [if_neg hbld] at h
      by_cases hrest : r2.dropWhile Char.isDigit = []
      · rw [if_pos hrest, Option.some.injEq, Prod.mk.injEq] at h
        obtain ⟨hv, hb⟩ := h
        have hr : r = v ++ ('-' :: ("build".data ++ bs)) := by
          have h1 := List.takeWhile_append_dropWhile (fun c => c != '-') r
          rw [hv] at h1
          have h2 : r.dropWhile (fun c => c != '-') = "-build".data ++ r2 :=
            dropLit_eq_some heq2
          have h3 : r2 = bs := by
            have h4 := List.takeWhile_append_dropWhile Char.isDigit r2
            rw [hb, hrest, List.append_nil] at h4
            exact h4.symm
          rw [h2, h3] at h1
          exact h1.symm
        refine ⟨?_, ?_, ?_, ?_, ?_⟩
        · rw [hs, hr]; simp [List.append_assoc]
        · exact fun hnil => hver (hv.symm ▸ hnil ▸ hv ▸ rfl) |>.elim
        · intro hmem
          have := List.mem_takeWhile_imp (hv ▸ hmem)
          simp at this
        · exact fun hnil => hbld (hb.trans hnil)
        · intro x hx
          exact List.mem_takeWhile_imp (hb ▸ hx)
      · rw [if_neg hrest] at h; exact absurd h (by simp)

theorem mainCore_decomp {variant : Variant} {s : Str} {d c bs : Str}
    (h : mainCore variant s = some (d, c, bs)) :
    s = mainLit variant ++ d ++ "-".data ++ c ++ "-build".data ++ bs ∧
      d.length = 8 ∧ (∀ x ∈ d, x.isDigit = true) ∧ c ≠ [] ∧
      (∀ x ∈ c, isHexLower x = true) ∧ bs ≠ [] ∧ ∀ x ∈ bs, x.isDigit = true := by
  unfold mainCore at h
  split at h
  · exact absurd h (by simp)
  case _ r heq =>
    have hs : s = mainLit variant ++ r := dropLit_eq_some heq
    dsimp only at h
    split at h
    case isFalse => exact absurd h (by simp)
    case isTrue hcond =>
      obtain ⟨hlen, hall⟩ := hcond
      split at h
      case _ r2 heqr =>
        by_cases hcom : r2.takeWhile isHexLower = []
        · rw [if_pos hcom] at h; exact absurd h (by simp)
        rw [if_neg hcom] at h
        split at h
        · exact absurd h (by simp)
        case _ r4 heq4 =>
          by_cases hbld : r4.takeWhile Char.isDigit = []
          · rw [if_pos hbld] at h; exact absurd h (by simp)
          rw [if_neg hbld] at h
          by_cases hrest : r4.dropWhile Char.isDigit = []
          · rw [if_pos hrest, Option.some.injEq] at h
            obtain ⟨hd, hcb⟩ := Prod.mk.injEq .. ▸ h
            obtain ⟨hcc, hbb⟩ := Prod.mk.injEq .. ▸ hcb
            have hr : r = d ++ ('-' :: r2) := by
              have h1 := List.take_append_drop 8 r
              rw [heqr, hd] at h1
              exact h1.symm
            have hr2 : r2 = c ++ ('-' :: ("build".data ++ bs)) := by
              have h1 := List.takeWhile_append_dropWhile isHexLower r2
              rw [hcc] at h1
              have h2 : r2.dropWhile isHexLower = "-build".data ++ r4 :=
                dropLit_eq_some heq4
              have h3 : r4 = bs := by
                have h4 := List.takeWhile_append_dropWhile Char.isDigit r4
                rw [hbb, hrest, List.append_nil] at h4
                exact h4.symm
              rw [h2, h3] at h1
              exact h1.symm
            refine ⟨?_, ?_, ?_, ?_, ?_, ?_, ?_⟩
            · rw [hs, hr, hr2]; simp [List.append_assoc]
            · rw [← hd]; exact hlen
            · intro x hx
              have hx' : x ∈ r.take 8 := hd ▸ hx
              exact List.all_eq_true.mp hall x hx'
            · exact fun hnil => hcom (hcc.trans hnil)
            · intro x hx
              exact List.mem_takeWhile_imp (hcc ▸ hx)
            · exact fun hnil => hbld (hbb.trans hnil)
            · intro x hx
              exact List.mem_takeWhile_imp (hbb ▸ hx)
          · rw [if_neg hrest] at h; exact absurd h (by simp)
      case _ hne => exact absurd h (by simp)

theorem reDollar_of_core {α : Type} {core : Str → Option α} {s : Str} {g : α}
    (h : core s = some g) : reDollar core s = some g := by
  simp [reDollar, h]

theorem reDollar_cases {α : Type} {core : Str → Option α} {s : Str} {g : α}
    (h : reDollar core s = some g) :
    core s = some g ∨ (s.getLast? = some '\n' ∧ core s.dropLast = some g) := by
  unfold reDollar at h
  split at h
  case _ g' heq => exact Or.inl (heq.trans h)
  case _ heq =>
    by_cases hl : s.getLast? = some '\n'
    · rw [if_pos hl] at h; exact Or.inr ⟨hl, h⟩
    · rw [if_neg hl] at h; exact absurd h (by simp)

theorem eq_dropLast_concat {s : Str} (h : s.getLast? = some '\n') :
    s = s.dropLast ++ ['\n'] := by
  have hne : s ≠ [] := by rintro rfl; simp at h
  have h1 := List.dropLast_append_getLast hne
  have h2 : s.getLast hne = '\n' := by
    have := List.getLast?_eq_getLast s hne
    rw [this] at h
    exact Option.some.inj h
  rw [h2] at h1
  exact h1.symm

/-! ## Characterising the allocator's loop -/

theorem foldl_max_eq (f : Entry → Option Nat) :
    ∀ (rs : List Entry) (a : Nat),
      rs.foldl (fun m e => match f e with | none => m | some b => max m b) a
        = max a ((rs.filterMap f).foldr max 0) := by
  intro rs
  induction rs with
  | nil => intro a; simp
  | cons e rs ih =>
    intro a
    cases hf : f e with
    | none => simp [List.foldl_cons, hf, List.filterMap_cons, ih]
    | some b => simp [List.foldl_cons, hf, List.filterMap_cons, ih, max_assoc]

/-- The loop of `next_build_number` computes the maximum (over 0) of the
kept build numbers, plus one. -/
theorem nextBuildNumber_eq (releases : List Entry) (aiderVersion : Str)
    (sourceType : SourceType) (dateStr commitHash : Option Str) (variant : Variant) :
    nextBuildNumber releases aiderVersion sourceType dateStr commitHash variant
      = ((releases.filterMap
          (keptBuild variant sourceType aiderVersion dateStr commitHash)).foldr max 0) + 1 := by
  unfold nextBuildNumber
  rw [foldl_max_eq]
  simp

theorem foldr_max_perm : ∀ {l l' : List Nat}, l.Perm l' →
    l.foldr max 0 = l'.foldr max 0 := by
  intro l l' h
  induction h with
  | nil => rfl
  | cons x _ ih => simp [List.foldr_cons, ih]
  | swap x y l => simpa [List.foldr_cons] using max_left_comm y x (l.foldr max 0)
  | trans _ _ ih1 ih2 => exact ih1.trans ih2

/-- A record the loop body skips does not change the allocation. -/
theorem nextBuildNumber_skip {variant : Variant} {sourceType : SourceType}
    {aiderVersion : Str} {dateStr commitHash : Option Str} {e : Entry}
    (he : keptBuild variant sourceType aiderVersion dateStr commitHash e = none)
    (releases : List Entry) :
    nextBuildNumber (e :: releases) aiderVersion sourceType dateStr commitHash variant
      = nextBuildNumber releases aiderVersion sourceType dateStr commitHash variant := by
  rw [nextBuildNumber_eq, nextBuildNumber_eq, List.filterMap_cons, he]

/-! ## The matchers recognise exactly the regex languages -/

theorem matchPypi_isSome_iff (variant : Variant) (s : Str) :
    (matchPypiTag variant s).isSome = true ↔
      (pypiLang variant s ∨ ∃ t, s = t ++ ['\n'] ∧ pypiLang variant t) := by
  constructor
  · intro h
    obtain ⟨⟨v, bs⟩, hg⟩ := Option.isSome_iff_exists.mp h
    rcases reDollar_cases hg with hcore | ⟨hlast, hcore⟩
    · exact Or.inl ⟨v, bs, pypiCore_decomp hcore⟩
    · exact Or.inr ⟨s.dropLast, eq_dropLast_concat hlast,
        v, bs, pypiCore_decomp hcore⟩
  · rintro (⟨v, bs, hs, hv, hvd, hb, hbd⟩ | ⟨t, rfl, v, bs, ht, hv, hvd, hb, hbd⟩)
    · rw [matchPypiTag, reDollar_of_core (hs ▸ pypiCore_render variant hv hvd hb hbd)]
      rfl
    · rw [matchPypiTag]
      cases hcs : pypiCore variant (t ++ ['\n']) with
      | some g => simp [reDollar, hcs]
      | none =>
        have hcoret := ht ▸ pypiCore_render variant hv hvd hb hbd
        simp [reDollar, hcs, List.getLast?_concat, List.dropLast_concat, hcoret]

theorem matchMain_isSome_iff (variant : Variant) (s : Str) :
    (matchMainTag variant s).isSome = true ↔
      (mainLang variant s ∨ ∃ t, s = t ++ ['\n'] ∧ mainLang variant t) := by
  constructor
  · intro h
    obtain ⟨⟨d, c, bs⟩, hg⟩ := Option.isSome_iff_exists.mp h
    rcases reDollar_cases hg with hcore | ⟨hlast, hcore⟩
    · exact Or.inl ⟨d, c, bs, mainCore_decomp hcore⟩
    · exact Or.inr ⟨s.dropLast, eq_dropLast_concat hlast,
        d, c, bs, mainCore_decomp hcore⟩
  · rintro (⟨d, c, bs, hs, h8, hdd, hc, hch, hb, hbd⟩ |
      ⟨t, rfl, d, c, bs, ht, h8, hdd, hc, hch, hb, hbd⟩)
    · rw [matchMainTag,
        reDollar_of_core (hs ▸ mainCore_render variant h8 hdd hc hch hb hbd)]
      rfl
    · rw [matchMainTag]
      cases hcs : mainCore variant (t ++ ['\n']) with
      | some g => simp [reDollar, hcs]
      | none =>
        have hcoret := ht ▸ mainCore_render variant h8 hdd hc hch hb hbd
        simp [reDollar, hcs, List.getLast?_concat, List.dropLast_concat, hcoret]

/-! ## Disjointness of the four tag patterns

All four regex literals pin down distinguishing characters at fixed
positions (index 11 separates `standalone-v…` / `standalone-main-…` /
`standalone-ce-…`, index 14 separates the two `-ce` patterns), so a string
can start with at most one of them. -/

theorem matchPypi_startsWith {variant : Variant} {s : Str} {g : Str × Str}
    (h : matchPypiTag variant s = some g) : ∃ r, s = pypiLit variant ++ r := by
  obtain ⟨v, bs⟩ := g
  rcases reDollar_cases h with hc | ⟨hl, hc⟩
  · obtain ⟨hs, -⟩ := pypiCore_decomp hc
    refine ⟨v ++ ("-build".data ++ bs), ?_⟩
    rw [hs]; simp [List.append_assoc]
  · obtain ⟨hs, -⟩ := pypiCore_decomp hc
    refine ⟨v ++ ("-build".data ++ (bs ++ ['\n'])), ?_⟩
    rw [eq_dropLast_concat hl, hs]
    simp [List.append_assoc]

theorem matchMain_startsWith {variant : Variant} {s : Str} {g : Str × Str × Str}
    (h : matchMainTag variant s = some g) : ∃ r, s = mainLit variant ++ r := by
  obtain ⟨d, c, bs⟩ := g
  rcases reDollar_cases h with hc | ⟨hl, hc⟩
  · obtain ⟨hs, -⟩ := mainCore_decomp hc
    refine ⟨d ++ ("-".data ++ (c ++ ("-build".data ++ bs))), ?_⟩
    rw [hs]; simp [List.append_assoc]
  · obtain ⟨hs, -⟩ := mainCore_decomp hc
    refine ⟨d ++ ("-".data ++ (c ++ ("-build".data ++ (bs ++ ['\n'])))), ?_⟩
    rw [eq_dropLast_concat hl, hs]
    simp [List.append_assoc]

theorem matchPypi_none_of_mainLit (variant var' : Variant) (rest : Str) :
    matchPypiTag variant (mainLit var' ++ rest) = none := by
  cases hm : matchPypiTag variant (mainLit var' ++ rest) with
  | none => rfl
  | some g =>
    exfalso
    obtain ⟨r, hr⟩ := matchPypi_startsWith hm
    cases variant <;> cases var' <;> simp only [pypiLit, mainLit] at hr
    · exact ne_of_append_char 11 'v' 'm' (by decide) (by decide) (by decide) hr.symm
    · exact ne_of_append_char 11 'v' 'c' (by decide) (by decide) (by decide) hr.symm
    · exact ne_of_append_char 11 'c' 'm' (by decide) (by decide) (by decide) hr.symm
    · exact ne_of_append_char 14 'v' 'm' (by decide) (by decide) (by decide) hr.symm

theorem matchPypi_none_of_pypiLit_ne (variant var' : Variant) (hne : var' ≠ variant)
    (rest : Str) : matchPypiTag variant (pypiLit var' ++ rest) = none := by
  cases hm : matchPypiTag variant (pypiLit var' ++ rest) with
  | none => rfl
  | some g =>
    exfalso
    obtain ⟨r, hr⟩ := matchPypi_startsWith hm
    cases variant <;> cases var' <;> simp only [pypiLit] at hr
    · exact hne rfl
    · exact ne_of_append_char 11 'v' 'c' (by decide) (by decide) (by decide) hr.symm
    · exact ne_of_append_char 11 'c' 'v' (by decide) (by decide) (by decide) hr.symm
    · exact hne rfl

theorem matchMain_none_of_pypiLit (variant var' : Variant) (rest : Str) :
    matchMainTag variant (pypiLit var' ++ rest) = none := by
  cases hm : matchMainTag variant (pypiLit var' ++ rest) with
  | none => rfl
  | some g =>
    exfalso
    obtain ⟨r, hr⟩ := matchMain_startsWith hm
    cases variant <;> cases var' <;> simp only [pypiLit, mainLit] at hr
    · exact ne_of_append_char 11 'm' 'v' (by decide) (by decide) (by decide) hr.symm
    · exact ne_of_append_char 11 'm' 'c' (by decide) (by decide) (by decide) hr.symm
    · exact ne_of_append_char 11 'c' 'v' (by decide) (by decide) (by decide) hr.symm
    · exact ne_of_append_char 14 'm' 'v' (by decide) (by decide) (by decide) hr.symm

theorem matchMain_none_of_mainLit_ne (variant var' : Variant) (hne : var' ≠ variant)
    (rest : Str) : matchMainTag variant (mainLit var' ++ rest) = none := by
  cases hm : matchMainTag variant (mainLit var' ++ rest) with
  | none => rfl
  | some g =>
    exfalso
    obtain ⟨r, hr⟩ := matchMain_startsWith hm
    cases variant <;> cases var' <;> simp only [mainLit] at hr
    · exact hne rfl
    · exact ne_of_append_char 11 'm' 'c' (by decide) (by decide) (by decide) hr.symm
    · exact ne_of_append_char 11 'c' 'm' (by decide) (by decide) (by decide) hr.symm
    · exact hne rfl

/-! ## The descending sort used for the "version not found" message -/

theorem strLt_asymm : ∀ {s t : Str}, strLt s t = true → strLt t s = false := by
  intro s
  induction s with
  | nil =>
    intro t h
    cases t with
    | nil => simp [strLt] at h
    | cons b bs => rfl
  | cons a as ih =>
    intro t h
    cases t with
    | nil => simp [strLt] at h
    | cons b bs =>
      by_cases hab : a < b
      · have hba : ¬ b < a := asymm hab
        simp [strLt, hba, hab]
      · by_cases hba : b < a
        · simp [strLt, hab, hba] at h
        · have heq : a = b := le_antisymm (not_lt.mp hba) (not_lt.mp hab)
          subst heq
          simp only [strLt, if_neg hab] at h ⊢
          exact ih h

theorem strLt_eq_of_not_lt : ∀ {s t : Str}, strLt s t = false → strLt t s = false →
    s = t := by
  intro s
  induction s with
  | nil =>
    intro t h1 _
    cases t with
    | nil => rfl
    | cons b bs => simp [strLt] at h1
  | cons a as ih =>
    intro t h1 h2
    cases t with
    | nil => simp [strLt] at h2
    | cons b bs =>
      by_cases hab : a < b
      · simp [strLt, hab] at h1
      · by_cases hba : b < a
        · simp [strLt, hba] at h2
        · have heq : a = b := le_antisymm (not_lt.mp hba) (not_lt.mp hab)
          subst heq
          simp only [strLt, if_neg hab] at h1 h2
          rw [ih h1 h2]

theorem strLt_trans : ∀ {s t u : Str}, strLt s t = true → strLt t u = true →
    strLt s u = true := by
  intro s
  induction s with
  | nil =>
    intro t u h1 h2
    cases t with
    | nil => simp [strLt] at h1
    | cons b bs =>
      cases u with
      | nil => simp [strLt] at h2
      | cons c cs => rfl
  | cons a as ih =>
    intro t u h1 h2
    cases t with
    | nil => simp [strLt] at h1
    | cons b bs =>
      cases u with
      | nil => simp [strLt] at h2
      | cons c cs =>
        by_cases hab : a < b
        · by_cases hbc : b < c
          · simp [strLt, lt_trans hab hbc]
          · by_cases hcb : c < b
            · simp [strLt, hbc, hcb] at h2
            · have heq : b = c := le_antisymm (not_lt.mp hcb) (not_lt.mp hbc)
              subst heq
              simp [strLt, hab]
        · by_cases hba : b < a
          · simp [strLt, hab, hba] at h1
          · have heq : a = b := le_antisymm (not_lt.mp hba) (not_lt.mp hab)
            subst heq
            simp only [strLt, if_neg hab] at h1
            by_cases hbc : a < c
            · simp [strLt, hbc]
            · by_cases hcb : c < a
              · simp [strLt, hbc, hcb] at h2
              · have heq2 : a = c := le_antisymm (not_lt.mp hcb) (not_lt.mp hbc)
                subst heq2
                simp only [strLt, if_neg hbc] at h2 ⊢
                exact ih h1 h2

theorem strLt_false_trans {x y z : Str} (h1 : strLt x y = false)
    (h2 : strLt y z = false) : strLt x z = false := by
  cases h3 : strLt x z with
  | false => rfl
  | true =>
    exfalso
    cases h4 : strLt y x with
    | true =>
      have := strLt_trans h4 h3
      rw [h2] at this
      exact Bool.noConfusion this
    | false =>
      have hxy := strLt_eq_of_not_lt h1 h4
      subst hxy
      rw [h2] at h3
      exact Bool.noConfusion h3

theorem insertDesc_perm (x : Str) : ∀ l : List Str, (insertDesc x l).Perm (x :: l) := by
  intro l
  induction l with
  | nil => exact List.Perm.refl _
  | cons y ys ih =>
    by_cases h : strLt x y = true
    · rw [insertDesc, if_pos h]
      exact (ih.cons y).trans (List.Perm.swap x y ys)
    · rw [insertDesc, if_neg h]

theorem insertDesc_sorted {x : Str} : ∀ {l : List Str},
    l.Pairwise (fun a b => strLt a b = false) →
    (insertDesc x l).Pairwise (fun a b => strLt a b = false) := by
  intro l
  induction l with
  | nil =>
    intro _
    exact List.pairwise_cons.mpr ⟨fun b hb => absurd hb (List.not_mem_nil b), List.Pairwise.nil⟩
  | cons y ys ih =>
    intro hp
    rw [List.pairwise_cons] at hp
    obtain ⟨hy, hys⟩ := hp
    by_cases h : strLt x y = true
    · rw [insertDesc, if_pos h, List.pairwise_cons]
      refine ⟨?_, ih hys⟩
      intro z hz
      have hz' := (insertDesc_perm x ys).mem_iff.mp hz
      rcases List.mem_cons.mp hz' with rfl | hzys
      · exact strLt_asymm h
      · exact hy z hzys
    · have hxy : strLt x y = false := Bool.eq_false_iff.mpr h
      rw [insertDesc, if_neg h, List.pairwise_cons]
      refine ⟨?_, List.pairwise_cons.mpr ⟨hy, hys⟩⟩
      intro z hz
      rcases List.mem_cons.mp hz with rfl | hzys
      · exact hxy
      · exact strLt_false_trans hxy (hy z hzys)

theorem sortDesc_perm : ∀ l : List Str, (sortDesc l).Perm l := by
  intro l
  induction l with
  | nil => exact List.Perm.refl _
  | cons x xs ih => exact (insertDesc_perm x (sortDesc xs)).trans (ih.cons x)

theorem sortDesc_sorted : ∀ l : List Str,
    (sortDesc l).Pairwise (fun a b => strLt a b = false) := by
  intro l
  induction l with
  | nil => simp [sortDesc]
  | cons x xs ih => exact insertDesc_sorted ih

/-! ## Isolation of allocation keys -/

/-- Well-formedness of the fields interpolated into a tag of the given
source classification: exactly the character classes of the corresponding
regex groups (a tag rendered from fields outside these classes is not a tag
"belonging to" that key — it does not even match its own pattern). -/
def validFields (sourceType : SourceType) (v d c : Str) : Prop :=
  match sourceType with
  | .pypi => v ≠ [] ∧ '-' ∉ v
  | .mainBranch =>
    d.length = 8 ∧ (∀ x ∈ d, x.isDigit = true) ∧ c ≠ [] ∧ ∀ x ∈ c, isHexLower x = true

/-- Whether a tag built for `(var', st', v', d', c')` belongs to the
allocation key `(variant, st, aiderVersion, dateStr, commitHash)` that
`next_build_number` is scanning for. -/
def sameAllocKey (variant : Variant) (st : SourceType) (aiderVersion : Str)
    (dateStr commitHash : Option Str)
    (var' : Variant) (st' : SourceType) (v' d' c' : Str) : Prop :=
  var' = variant ∧ st' = st ∧
    (match st with
     | .pypi => v' = aiderVersion
     | .mainBranch => some d' = dateStr ∧ some c' = commitHash)

/-- A record whose tag was rendered for a different variant, a different
source classification, or a different version / date+commit key is skipped
by `next_build_number`'s loop. -/
theorem keptBuild_none_of_other_key
    (variant : Variant) (st : SourceType) (aiderVersion : Str)
    (dateStr commitHash : Option Str) (var' : Variant) (st' : SourceType)
    (v' d' c' : Str) (b' : Nat)
    (hvalid : validFields st' v' d' c')
    (hdiff : ¬ sameAllocKey variant st aiderVersion dateStr commitHash var' st' v' d' c') :
    keptBuild variant st aiderVersion dateStr commitHash
      (Entry.dictTag (renderTag var' st' v' (some d') (some c') b')) = none := by
  cases st' with
  | pypi =>
    obtain ⟨hv, hvd⟩ := hvalid
    have htag : renderTag var' .pypi v' (some d') (some c') b'
        = pypiLit var' ++ (v' ++ ("-build".data ++ natToStr b')) := by
      simp [renderTag, List.append_assoc]
    cases st with
    | pypi =>
      by_cases hvar : var' = variant
      · subst hvar
        have hm : matchPypiTag var' (renderTag var' .pypi v' (some d') (some c') b')
            = some (v', natToStr b') := by
          have hr := pypiCore_render var' hv hvd (natToStr_ne_nil b') (natToStr_digits b')
          simp only [renderTag]
          exact reDollar_of_core hr
        have hne : v' ≠ aiderVersion := fun he => hdiff ⟨rfl, rfl, he⟩
        simp [keptBuild, entryTag, hm, hne]
      · have hm : matchPypiTag variant (renderTag var' .pypi v' (some d') (some c') b')
            = none := by
          rw [htag]
          exact matchPypi_none_of_pypiLit_ne variant var' hvar _
        simp [keptBuild, entryTag, hm]
    | mainBranch =>
      have hm : matchMainTag variant (renderTag var' .pypi v' (some d') (some c') b')
          = none := by
        rw [htag]
        exact matchMain_none_of_pypiLit variant var' _
      simp [keptBuild, entryTag, hm]
  | mainBranch =>
    obtain ⟨h8, hdd, hc, hch⟩ := hvalid
    have htag : renderTag var' .mainBranch v' (some d') (some c') b'
        = mainLit var' ++ (d' ++ ("-".data ++ (c' ++ ("-build".data ++ natToStr b')))) := by
      simp [renderTag, pyStr, List.append_assoc]
    cases st with
    | pypi =>
      have hm : matchPypiTag variant (renderTag var' .mainBranch v' (some d') (some c') b')
          = none := by
        rw [htag]
        exact matchPypi_none_of_mainLit variant var' _
      simp [keptBuild, entryTag, hm]
    | mainBranch =>
      by_cases hvar : var' = variant
      · subst hvar
        have hm : matchMainTag var' (renderTag var' .mainBranch v' (some d') (some c') b')
            = some (d', c', natToStr b') := by
          have hr := mainCore_render var' h8 hdd hc hch
            (natToStr_ne_nil b') (natToStr_digits b')
          simp only [renderTag, pyStr]
          exact reDollar_of_core hr
        have hne : ¬ (some d' = dateStr ∧ some c' = commitHash) :=
          fun he => hdiff ⟨rfl, rfl, he⟩
        simp [keptBuild, entryTag, hm, hne]
      · have hm : matchMainTag variant (renderTag var' .mainBranch v' (some d') (some c') b')
            = none := by
          rw [htag]
          exact matchMain_none_of_mainLit_ne variant var' hvar _
        simp [keptBuild, entryTag, hm]

/-! ## The claims -/

/-- C2: `next_build_number` returns the maximum of the base-10-parsed
build-number groups among records whose tag matches the selected pattern and
whose key fields equal the given ones, plus 1; if no records are kept the
result is 1; the result is always strictly positive; and a listing whose
matching tags for the key carry build numbers 1, 2, 5 yields 6. -/
theorem C2_next_build_number_is_max_plus_one :
    (∀ (releases : List Entry) (aiderVersion : Str) (sourceType : SourceType)
        (dateStr commitHash : Option Str) (variant : Variant),
      nextBuildNumber releases aiderVersion sourceType dateStr commitHash variant
        = ((releases.filterMap
            (keptBuild variant sourceType aiderVersion dateStr commitHash)).foldr
              max 0) + 1
      ∧ 0 < nextBuildNumber releases aiderVersion sourceType dateStr commitHash variant
      ∧ (releases.filterMap
            (keptBuild variant sourceType aiderVersion dateStr commitHash) = [] →
          nextBuildNumber releases aiderVersion sourceType dateStr commitHash variant = 1))
    ∧ nextBuildNumber
        [Entry.dictTag "standalone-v1.2.0-build1".data,
         Entry.dictTag "standalone-v1.2.0-build2".data,
         Entry.dictTag "standalone-v1.2.0-build5".data]
        "1.2.0".data .pypi none none .aiderChat = 6 := by
  refine ⟨fun releases a st d c var => ⟨nextBuildNumber_eq releases a st d c var, ?_, ?_⟩,
    by decide⟩
  · rw [nextBuildNumber_eq]
    exact Nat.succ_pos _
  · intro h
    rw [nextBuildNumber_eq, h]
    rfl

/-- C8: `next_build_number` silently skips listing elements that are not
dicts, lack a `tag_name` key, or whose `tag_name` is not a string: the
result equals the result on the listing with those elements removed (and the
total Lean function witnesses that no such record raises). -/
theorem C8_malformed_records_skipped :
    ∀ (releases : List Entry) (aiderVersion : Str) (sourceType : SourceType)
      (dateStr commitHash : Option Str) (variant : Variant),
      nextBuildNumber releases aiderVersion sourceType dateStr commitHash variant
        = nextBuildNumber
            (releases.filter fun e => match e with | .dictTag _ => true | _ => false)
            aiderVersion sourceType dateStr commitHash variant := by
  intro releases a st d c var
  have hfm : ∀ rs : List Entry,
      rs.filterMap (keptBuild var st a d c)
        = (rs.filter fun e =>
            match e with | Entry.dictTag _ => true | _ => false).filterMap
            (keptBuild var st a d c) := by
    intro rs
    induction rs with
    | nil => rfl
    | cons e rs ih =>
      cases e with
      | dictTag t => simp only [List.filterMap_cons, List.filter_cons, if_true, ite_true, ih]
      | notDict => simpa [List.filterMap_cons, List.filter_cons, keptBuild, entryTag] using ih
      | dictNoTag => simpa [List.filterMap_cons, List.filter_cons, keptBuild, entryTag] using ih
      | dictNonStrTag =>
        simpa [List.filterMap_cons, List.filter_cons, keptBuild, entryTag] using ih
  rw [nextBuildNumber_eq, nextBuildNumber_eq, hfm]

/-- C9: `next_build_number` is order-independent: permuting the release
listing never changes the result. -/
theorem C9_order_independence :
    ∀ (releases releases' : List Entry) (aiderVersion : Str) (sourceType : SourceType)
      (dateStr commitHash : Option Str) (variant : Variant),
      releases.Perm releases' →
      nextBuildNumber releases aiderVersion sourceType dateStr commitHash variant
        = nextBuildNumber releases' aiderVersion sourceType dateStr commitHash variant := by
  intro rs rs' a st d c var h
  rw [nextBuildNumber_eq, nextBuildNumber_eq,
    foldr_max_perm (h.filterMap (keptBuild var st a d c))]

/-- Witness for C9 at a concrete two-element listing and its swap. -/
theorem C9_order_independence_witness :
    nextBuildNumber
        [Entry.dictTag "standalone-v1.2.0-build1".data, Entry.notDict]
        "1.2.0".data .pypi none none .aiderChat
      = nextBuildNumber
          [Entry.notDict, Entry.dictTag "standalone-v1.2.0-build1".data]
          "1.2.0".data .pypi none none .aiderChat :=
  C9_order_independence _ _ _ _ _ _ _
    (List.Perm.swap Entry.notDict (Entry.dictTag "standalone-v1.2.0-build1".data) [])

/-- C10: for snapshot (`main`) builds, `build_metadata`'s `tag_name` and
`artifact_name` do not depend on the version argument: two runs differing
only in the version string produce identical values of both fields. -/
theorem C10_snapshot_naming_ignores_version :
    ∀ (variant : Variant) (buildNumber : Nat) (dateStr commitHash : Option Str)
      (now v1 v2 : Str),
      (buildMetadata v1 buildNumber .mainBranch dateStr commitHash variant now).tag_name
        = (buildMetadata v2 buildNumber .mainBranch dateStr commitHash variant now).tag_name
      ∧ (buildMetadata v1 buildNumber .mainBranch dateStr commitHash variant now).artifact_name
        = (buildMetadata v2 buildNumber .mainBranch dateStr commitHash variant now).artifact_name := by
  intro variant b d c now v1 v2
  cases variant <;> exact ⟨rfl, rfl⟩

/-- C1 (amended): for every variant, source classification, build number and
field values drawn from the patterns' character classes (pypi: a nonempty
hyphen-free version; main: a date of exactly 8 digits and a nonempty
lowercase-hex commit), the tag produced by `build_metadata` is matched by
the regex of `RE_RELEASE_TAGS` for the same variant and classification, and
the captured groups equal the original field values, the build group
parsing back to the original build number. -/
theorem C1_roundtrip_on_valid_fields :
    (∀ (variant : Variant) (v : Str) (dateStr commitHash : Option Str)
        (buildNumber : Nat) (now : Str),
      v ≠ [] → '-' ∉ v →
      matchPypiTag variant
          (buildMetadata v buildNumber .pypi dateStr commitHash variant now).tag_name
        = some (v, natToStr buildNumber)
      ∧ parseNat (natToStr buildNumber) = buildNumber)
    ∧ ∀ (variant : Variant) (v d c : Str) (buildNumber : Nat) (now : Str),
        d.length = 8 → (∀ x ∈ d, x.isDigit = true) →
        c ≠ [] → (∀ x ∈ c, isHexLower x = true) →
        matchMainTag variant
            (buildMetadata v buildNumber .mainBranch (some d) (some c) variant now).tag_name
          = some (d, c, natToStr buildNumber)
        ∧ parseNat (natToStr buildNumber) = buildNumber := by
  constructor
  · intro variant v dOpt cOpt b now hv hvd
    refine ⟨?_, parseNat_natToStr b⟩
    have hr := pypiCore_render variant hv hvd (natToStr_ne_nil b) (natToStr_digits b)
    show matchPypiTag variant (renderTag variant .pypi v dOpt cOpt b) = _
    simp only [renderTag]
    exact reDollar_of_core hr
  · intro variant v d c b now h8 hdd hc hch
    refine ⟨?_, parseNat_natToStr b⟩
    have hr := mainCore_render variant h8 hdd hc hch (natToStr_ne_nil b) (natToStr_digits b)
    show matchMainTag variant (renderTag variant .mainBranch v (some d) (some c) b) = _
    simp only [renderTag, pyStr]
    exact reDollar_of_core hr

/-- C1 fails as stated for arbitrary field values: the version `1.0-rc1`
contains a hyphen, so the tag `build_metadata` renders for it is not matched
by the pypi regex at all. -/
theorem C1_counterexample :
    (buildMetadata "1.0-rc1".data 1 .pypi none none .aiderChat []).tag_name
        = "standalone-v1.0-rc1-build1".data
    ∧ matchPypiTag .aiderChat
        (buildMetadata "1.0-rc1".data 1 .pypi none none .aiderChat []).tag_name = none :=
  ⟨by decide, by decide⟩

/-- Witness for C1 at variant `aider-chat`, version `1.2.0`, build 3. -/
theorem C1_roundtrip_witness :
    matchPypiTag .aiderChat
        (buildMetadata "1.2.0".data 3 .pypi none none .aiderChat []).tag_name
      = some ("1.2.0".data, natToStr 3)
    ∧ parseNat (natToStr 3) = 3 :=
  C1_roundtrip_on_valid_fields.1 .aiderChat "1.2.0".data none none 3 []
    (by decide) (by decide)

/-- C3: a record whose tag belongs to a different variant, a different
source classification, or a different version (pypi) / date+commit pair
(main) does not change `next_build_number`'s result for the key under test;
and the concrete snapshot scenario of the spec: with date `20240101` and
commit `abc123`, tags `standalone-main-20240101-abc123-build2` and
`standalone-main-20240102-abc123-build9` yield 3 (the second tag's date
differs, so it is excluded). -/
theorem C3_key_isolation :
    (∀ (variant : Variant) (st : SourceType) (aiderVersion : Str)
        (dateStr commitHash : Option Str) (releases : List Entry)
        (var' : Variant) (st' : SourceType) (v' d' c' : Str) (b' : Nat),
      validFields st' v' d' c' →
      ¬ sameAllocKey variant st aiderVersion dateStr commitHash var' st' v' d' c' →
      nextBuildNumber
          (Entry.dictTag (renderTag var' st' v' (some d') (some c') b') :: releases)
          aiderVersion st dateStr commitHash variant
        = nextBuildNumber releases aiderVersion st dateStr commitHash variant)
    ∧ nextBuildNumber
        [Entry.dictTag "standalone-main-20240101-abc123-build2".data,
         Entry.dictTag "standalone-main-20240102-abc123-build9".data]
        "1.0".data .mainBranch (some "20240101".data) (some "abc123".data)
        .aiderChat = 3 := by
  refine ⟨?_, by decide⟩
  intro variant st a dOpt cOpt rs var' st' v' d' c' b' hvalid hdiff
  exact nextBuildNumber_skip
    (keptBuild_none_of_other_key variant st a dOpt cOpt var' st' v' d' c' b' hvalid hdiff) rs

/-- Witness for C3: an `aider-ce` pypi tag for the same version string does
not influence the `aider-chat` pypi count. -/
theorem C3_key_isolation_witness :
    nextBuildNumber
        [Entry.dictTag
          (renderTag .aiderCe .pypi "1.2.0".data (some "20240101".data)
            (some "abc123".data) 7)]
        "1.2.0".data .pypi none none .aiderChat
      = nextBuildNumber [] "1.2.0".data .pypi none none .aiderChat :=
  C3_key_isolation.1 .aiderChat .pypi "1.2.0".data none none []
    .aiderCe .pypi "1.2.0".data "20240101".data "abc123".data 7
    (by exact ⟨by decide, by decide⟩) (by intro h; exact Variant.noConfusion h.1)

/-- C5: with `main` source classification and a missing (absent or empty)
commit hash or date, `compute_version.main` fails with the single combined
message naming both `--commit-hash` and `--date`, and the outcome is
independent of the release-listing fetch result — the guard runs before any
fetch or scan. -/
theorem C5_snapshot_missing_fields_fail_fast :
    ∀ (args : CVArgs) (repoEnv tokenEnv : Option Str)
      (fetchResult fetchResult' : Except Str (List Entry)) (now now' : Str),
      args.sourceType = .mainBranch →
      (¬ pyTruthy args.commitHash ∨ ¬ pyTruthy args.date) →
      computeVersionMain args repoEnv tokenEnv fetchResult now
          = .error missingFieldsMsg
      ∧ computeVersionMain args repoEnv tokenEnv fetchResult now
          = computeVersionMain args repoEnv tokenEnv fetchResult' now'
      ∧ missingFieldsMsg
          = "--commit-hash".data ++ " and ".data ++ "--date".data
              ++ " are required for main branch builds".data := by
  intro args re te f f' now now' hst hmiss
  have h1 : computeVersionMain args re te f now = .error missingFieldsMsg := by
    unfold computeVersionMain
    rw [if_pos ⟨hst, hmiss⟩]
  have h2 : computeVersionMain args re te f' now' = .error missingFieldsMsg := by
    unfold computeVersionMain
    rw [if_pos ⟨hst, hmiss⟩]
  exact ⟨h1, h1.trans h2.symm, rfl⟩

/-- Witness for C5: date given, commit omitted. -/
theorem C5_fail_fast_witness :
    computeVersionMain
        (CVArgs.mk "1.0".data none .mainBranch none (some "20240101".data) .aiderChat)
        (some "owner/repo".data) (some "token".data) (Except.ok []) []
      = .error missingFieldsMsg :=
  (C5_snapshot_missing_fields_fail_fast _ _ _ _ (Except.ok []) _ []
    rfl (Or.inl (by decide))).1

/-- C6 (amended): the tag matching used by `next_build_number` accepts a
string exactly when the entire string — or the string minus one trailing
newline, which Python's `$` also accepts under `re.match` — conforms to the
selected pattern; proper substrings, proper prefixes, or strings with any
other extra trailing characters never match. -/
theorem C6_full_string_match_up_to_trailing_newline :
    ∀ (variant : Variant) (s : Str),
      ((matchPypiTag variant s).isSome = true ↔
        (pypiLang variant s ∨ ∃ t, s = t ++ ['\n'] ∧ pypiLang variant t))
      ∧ ((matchMainTag variant s).isSome = true ↔
        (mainLang variant s ∨ ∃ t, s = t ++ ['\n'] ∧ mainLang variant t)) :=
  fun variant s => ⟨matchPypi_isSome_iff variant s, matchMain_isSome_iff variant s⟩

/-- C6 fails as stated: a tag with one extra trailing newline is counted by
`next_build_number` even though the entire string does not conform to the
pypi pattern (`$` matches before a final newline under Python `re.match`). -/
theorem C6_counterexample :
    matchPypiTag .aiderChat "standalone-v1.2.0-build5\n".data
        = some ("1.2.0".data, "5".data)
    ∧ pypiCore .aiderChat "standalone-v1.2.0-build5\n".data = none
    ∧ nextBuildNumber [Entry.dictTag "standalone-v1.2.0-build5\n".data]
        "1.2.0".data .pypi none none .aiderChat = 6 :=
  ⟨by decide, by decide, by decide⟩

/-- C7: a transport-level failure of the registry fetch surfaces as the
distinct "Failed to query PyPI" condition, and that message is never equal
to any "version not found" message `resolve_version` can produce. -/
theorem C7_transport_error_never_conflated :
    (∀ (variant : Variant) (exc : Str) (requested : Option Str),
      fetchAiderMain (.error exc) requested variant
        = .error (transportMsg variant exc))
    ∧ ∀ (variant variant' : Variant) (exc requested : Str) (releaseKeys : List Str),
        transportMsg variant exc ≠ notFoundMsg variant' requested releaseKeys := by
  constructor
  · intro variant exc requested
    rfl
  · intro variant variant' exc r keys h
    have h1 : transportMsg variant exc
        = "Failed to query PyPI for ".data
            ++ (variantName variant ++ (" releases: ".data ++ exc)) := by
      simp [transportMsg, List.append_assoc]
    have h2 : notFoundMsg variant' r keys
        = "Requested ".data
            ++ (variantName variant' ++ (" version '".data ++ (r
              ++ ("' was not found on PyPI. Available versions (newest first): ".data
                ++ List.intercalate ", ".data ((sortDesc keys).take 20))))) := by
      simp [notFoundMsg, List.append_assoc]
    rw [h1, h2] at h
    exact ne_of_append_char 0 'F' 'R' (by decide) (by decide) (by decide) h

/-- C4 (amended): a nonempty requested version that is a key of `releases`
is returned unchanged; a nonempty requested version that is absent fails
with the "not found" message enumerating the first 20 entries of the
descending-sorted known versions (a permutation of the keys, sorted so that
no earlier entry is smaller than a later one, hence the 20 greatest); with
no requested version (or an empty one, which Python truthiness treats as
absent) the registry's `info.version` is returned, and its absence or
emptiness fails with the "no latest version available" condition. -/
theorem C4_resolver_exact_match :
    (∀ (data : RegistryData) (variant : Variant) (r : Str),
      r ≠ [] → r ∈ data.releases →
      resolveVersion data (some r) variant = .ok r)
    ∧ (∀ (data : RegistryData) (variant : Variant) (r : Str),
        r ≠ [] → r ∉ data.releases →
        resolveVersion data (some r) variant
            = .error (notFoundMsg variant r data.releases)
        ∧ (sortDesc data.releases).Pairwise (fun a b => strLt a b = false)
        ∧ (sortDesc data.releases).Perm data.releases
        ∧ ((sortDesc data.releases).take 20).length ≤ 20)
    ∧ (∀ (data : RegistryData) (variant : Variant) (v : Str),
        data.infoVersion = some v → v ≠ [] →
        resolveVersion data none variant = .ok v)
    ∧ ∀ (data : RegistryData) (variant : Variant),
        data.infoVersion = none ∨ data.infoVersion = some [] →
        resolveVersion data none variant = .error (noLatestMsg variant) := by
  refine ⟨?_, ?_, ?_, ?_⟩
  · intro data variant r hr hmem
    have ht : pyTruthy (some r) = true := by
      cases r with
      | nil => exact absurd rfl hr
      | cons a as => rfl
    simp [resolveVersion, ht, hmem]
  · intro data variant r hr hmem
    have ht : pyTruthy (some r) = true := by
      cases r with
      | nil => exact absurd rfl hr
      | cons a as => rfl
    refine ⟨?_, sortDesc_sorted _, sortDesc_perm _, ?_⟩
    · simp [resolveVersion, ht, hmem]
    · rw [List.length_take]
      exact min_le_left _ _
  · intro data variant v hv hvne
    have he : v.isEmpty = false := by
      cases v with
      | nil => exact absurd rfl hvne
      | cons a as => rfl
    simp [resolveVersion, pyTruthy, hv, he]
  · intro data variant hcase
    rcases hcase with hnone | hempty
    · simp [resolveVersion, pyTruthy, hnone]
    · simp [resolveVersion, pyTruthy, hempty]

/-- C4 fails as stated at the empty version string: with `""` a key of
`releases`, requesting `""` does not return it unchanged — Python's
`if requested:` treats it as absent and falls through to `info.version`. -/
theorem C4_counterexample :
    ([] : Str) ∈ (RegistryData.mk [([] : Str)] (some "9.9".data)).releases
    ∧ resolveVersion (RegistryData.mk [([] : Str)] (some "9.9".data))
        (some ([] : Str)) .aiderChat = .ok "9.9".data
    ∧ ("9.9".data : Str) ≠ ([] : Str) :=
  ⟨by decide, rfl, by decide⟩

/-- Witness for C4: a present nonempty version is returned unchanged. -/
theorem C4_resolver_witness :
    resolveVersion (RegistryData.mk ["1.2.0".data] none) (some "1.2.0".data) .aiderChat
      = .ok "1.2.0".data :=
  C4_resolver_exact_match.1 _ .aiderChat "1.2.0".data (by decide) (by decide)

end AiderStandalone
